import Mathlib

/-!
# Verification of the incremental-sync / dedup / batched-publish engine

Shallow embedding of the sync engine shared by the scrapers in this
repository (`scrappers/pdb/index.py`, `scrappers/qmeme/index.py`,
`scrappers/memes/index.py`, `scrappers/imgflip/index.py`,
`scrappers/imgflip/db.py`, `scrappers/yzk/dx.py`,
`scrappers/pdb/profile.py`, `scrappers/pdb/ptx.py`).

Modelling conventions:
* a record/raw item is reduced to the fields the engine logic reads
  (its integer `id`, plus the specific optional fields read by the
  imgflip merge path); site-specific enrichment fields added on
  admission never change `id` and are dropped;
* wall-clock timestamps (`time.time()` floats) are modelled as `Int`;
  the engine only adds spans to them and compares with `>`;
* the remote Store is modelled observationally: each successful
  `upload_directory_as_directory` call appends the serialized table to
  a `published` list, so `published` is the sequence of snapshots the
  Store has received in this run (most recent last);
* `pandas.sort_values(by='id', ascending=False)` is modelled by an
  insertion sort on the `id` key (ids are distinct in every table the
  engine builds, so any correct sort produces the same list).
-/

namespace Scrappers

/-- A table record / candidate item, reduced to the `id` field that the
dedup ledger, the sort and the admission logic read. -/
structure Item where
  id : Int
deriving DecidableEq, Repr

/-- Insert `x` into a list kept in descending `key` order. -/
def insertDescBy (key : α → Int) (x : α) : List α → List α
  | [] => [x]
  | y :: ys => if key y ≤ key x then x :: y :: ys else y :: insertDescBy key x ys

/-- Model of `df.sort_values(by=['id'], ascending=[False])`: sort a list
in descending order of `key`. -/
def sortDescBy (key : α → Int) (xs : List α) : List α :=
  xs.foldr (insertDescBy key) []

/-- Model of `df.sort_values(by=['id'], ascending=[True])` (used by
`yzk/dx.py` on the pending source pages): ascending sort. -/
def insertAscBy (key : α → Int) (x : α) : List α → List α
  | [] => [x]
  | y :: ys => if key x ≤ key y then x :: y :: ys else y :: insertAscBy key x ys

def sortAscBy (key : α → Int) (xs : List α) : List α :=
  xs.foldr (insertAscBy key) []

theorem insertDescBy_perm (key : α → Int) (x : α) (l : List α) :
    List.Perm (insertDescBy key x l) (x :: l) := by
  induction l with
  | nil => simp [insertDescBy]
  | cons y ys ih =>
    by_cases h : key y ≤ key x
    · simp [insertDescBy, h]
    · simp only [insertDescBy, if_neg h]
      exact List.Perm.trans (List.Perm.cons y ih) (List.Perm.swap x y ys)

theorem sortDescBy_perm (key : α → Int) (xs : List α) :
    List.Perm (sortDescBy key xs) xs := by
  induction xs with
  | nil => simp [sortDescBy]
  | cons x l ih =>
    have h1 : List.Perm (insertDescBy key x (sortDescBy key l)) (x :: sortDescBy key l) :=
      insertDescBy_perm key x (sortDescBy key l)
    exact List.Perm.trans h1 (List.Perm.cons x ih)

theorem insertDescBy_pairwise (key : α → Int) (x : α) (l : List α)
    (h : l.Pairwise (fun a b => key b ≤ key a)) :
    (insertDescBy key x l).Pairwise (fun a b => key b ≤ key a) := by
  induction l with
  | nil => simp [insertDescBy]
  | cons y ys ih =>
    rcases List.pairwise_cons.mp h with ⟨hy, hys⟩
    by_cases hle : key y ≤ key x
    · simp only [insertDescBy, if_pos hle]
      refine List.pairwise_cons.mpr ⟨?_, h⟩
      intro b hb
      rcases List.mem_cons.mp hb with rfl | hb'
      · exact hle
      · exact le_trans (hy b hb') hle
    · simp only [insertDescBy, if_neg hle]
      refine List.pairwise_cons.mpr ⟨?_, ih hys⟩
      intro b hb
      rcases List.mem_cons.mp ((insertDescBy_perm key x ys).mem_iff.mp hb) with rfl | hb'
      · exact le_of_not_le hle
      · exact hy b hb'

theorem sortDescBy_pairwise (key : α → Int) (xs : List α) :
    (sortDescBy key xs).Pairwise (fun a b => key b ≤ key a) := by
  induction xs with
  | nil => simp [sortDescBy]
  | cons x l ih => exact insertDescBy_pairwise key x (sortDescBy key l) ih

/-- A sorted table whose keys are pairwise distinct is strictly
descending. -/
theorem sortDescBy_pairwise_lt (key : α → Int) (xs : List α)
    (h : (xs.map key).Nodup) :
    (sortDescBy key xs).Pairwise (fun a b => key b < key a) := by
  have hne : xs.Pairwise (fun a b => key a ≠ key b) :=
    (List.pairwise_map).mp h
  have hne' : (sortDescBy key xs).Pairwise (fun a b => key a ≠ key b) :=
    ((sortDescBy_perm key xs).pairwise_iff (fun hxy => Ne.symm hxy)).mpr hne
  have hle : (sortDescBy key xs).Pairwise (fun a b => key b ≤ key a) :=
    sortDescBy_pairwise key xs
  have hand := hle.and hne'
  exact hand.imp (fun h => lt_of_le_of_ne h.1 (Ne.symm h.2))

theorem sortDescBy_map_nodup (key : α → Int) (xs : List α)
    (h : (xs.map key).Nodup) :
    ((sortDescBy key xs).map key).Nodup := by
  exact (List.Perm.nodup_iff (List.Perm.map key (sortDescBy_perm key xs))).mpr h

namespace Index

/-!
## The shared `sync` / `_deploy` engine

Embedding of the item loop of `scrappers/pdb/index.py::sync`
(lines 104-123) and its `_deploy` closure (lines 51-100); the same
closure appears verbatim in `qmeme/index.py`, `memes/index.py` and
`imgflip/index.py`.
-/

/-- The mutable engine state captured by the `sync` closures:
`records`, `exist_ids`, `has_update`, `_last_update`, `_total_count`,
plus the observed sequence of snapshots uploaded to the Store. -/
structure State where
  records : List Item
  existIds : Finset Int
  hasUpdate : Bool
  lastUpdate : Option Int
  totalCount : Nat
  published : List (List Item)
deriving DecidableEq

/-- `_deploy(force=...)` from `pdb/index.py` lines 51-100 / `qmeme/index.py`
lines 156-210: return unless `has_update`; return if not forced and
`_last_update is not None and _last_update + deploy_span > time.time()`;
otherwise serialize `records` sorted by id descending, upload it, clear
`has_update`, stamp `_last_update` and refresh `_total_count`. -/
def deploy (deploySpan : Int) (force : Bool) (now : Int) (s : State) : State :=
  if s.hasUpdate = false then s
  else
    let skip : Bool := !force &&
      (match s.lastUpdate with
       | none => false
       | some t => decide (t + deploySpan > now))
    if skip then s
    else
      let table := sortDescBy Item.id s.records
      { s with
        published := s.published ++ [table]
        hasUpdate := false
        lastUpdate := some now
        totalCount := table.length }

/-- The admission test of `pdb/index.py::sync` lines 112-119: if the id
is not in `exist_ids`, append the (enriched) item to `records`, add the
id to `exist_ids` and set `has_update`; otherwise skip the item. -/
def admitItem (s : State) (it : Item) : State :=
  if it.id ∈ s.existIds then s
  else { s with
         records := s.records ++ [it]
         existIds := insert it.id s.existIds
         hasUpdate := true }

/-- One iteration of the item loop of `pdb/index.py::sync` lines 111-121:
the admission test followed by `_deploy(force=False)`. The item comes
paired with the `time.time()` value `_deploy` observes at this
iteration. -/
def processItem (deploySpan : Int) (s : State) (x : Item × Int) : State :=
  deploy deploySpan false x.2 (admitItem s x.1)

def runItems (deploySpan : Int) (s : State) (xs : List (Item × Int)) : State :=
  xs.foldl (processItem deploySpan) s

/-- The state right after loading from the Store (`pdb/index.py`
lines 36-49): `records` is the loaded table, `exist_ids = set(df['id'])`,
no pending update, no flush performed yet. -/
def initState (loaded : List Item) : State :=
  { records := loaded
    existIds := (loaded.map Item.id).toFinset
    hasUpdate := false
    lastUpdate := none
    totalCount := loaded.length
    published := [] }

/-- `pdb/index.py::sync` lines 104-123: load, fold the item loop over the
fetched candidates, then `_deploy(force=True)`. -/
def sync (deploySpan : Int) (loaded : List Item) (xs : List (Item × Int))
    (endTime : Int) : State :=
  deploy deploySpan true endTime (runItems deploySpan (initState loaded) xs)

/-- `_deploy` never touches `records` or `exist_ids`: it only serializes
and uploads them. -/
theorem deploy_records_existIds (sp : Int) (f : Bool) (n : Int) (s : State) :
    (deploy sp f n s).records = s.records ∧ (deploy sp f n s).existIds = s.existIds := by
  unfold deploy
  by_cases h : s.hasUpdate = false
  · simp [h]
  · simp only [if_neg h]
    split
    · exact ⟨rfl, rfl⟩
    · exact ⟨rfl, rfl⟩

/-- `_deploy` either skips (state unchanged) or appends exactly the
descending-sorted serialization of `records` to the Store. -/
theorem deploy_published (sp : Int) (f : Bool) (n : Int) (s : State) :
    (deploy sp f n s).published = s.published ∨
    (deploy sp f n s).published = s.published ++ [sortDescBy Item.id s.records] := by
  unfold deploy
  by_cases h : s.hasUpdate = false
  · simp [h]
  · simp only [if_neg h]
    split
    · exact Or.inl rfl
    · exact Or.inr rfl

/-- The run-wide invariant: the accumulator has pairwise distinct ids,
every accumulated id is in the ledger, and every snapshot already
published in this run is strictly descending by id. -/
def Inv (s : State) : Prop :=
  (s.records.map Item.id).Nodup ∧
  (∀ r ∈ s.records, r.id ∈ s.existIds) ∧
  (∀ t ∈ s.published, t.Pairwise (fun a b => Item.id b < Item.id a))

theorem inv_initState (loaded : List Item) (h : (loaded.map Item.id).Nodup) :
    Inv (initState loaded) := by
  refine ⟨h, ?_, ?_⟩
  · intro r hr
    simp only [initState, List.mem_toFinset]
    exact List.mem_map_of_mem Item.id hr
  · intro t ht
    simp [initState] at ht

theorem deploy_inv (sp : Int) (f : Bool) (n : Int) (s : State) (h : Inv s) :
    Inv (deploy sp f n s) := by
  obtain ⟨h1, h2, h3⟩ := h
  obtain ⟨hr, he⟩ := deploy_records_existIds sp f n s
  refine ⟨hr ▸ h1, ?_, ?_⟩
  · intro r hmem
    rw [hr] at hmem
    rw [he]
    exact h2 r hmem
  · intro t ht
    rcases deploy_published sp f n s with hp | hp
    · rw [hp] at ht
      exact h3 t ht
    · rw [hp, List.mem_append] at ht
      rcases ht with ht | ht
      · exact h3 t ht
      · rcases List.mem_singleton.mp ht with rfl
        exact sortDescBy_pairwise_lt Item.id s.records h1

theorem admit_inv (s : State) (it : Item) (h : Inv s) : Inv (admitItem s it) := by
  unfold admitItem
  by_cases hmem : it.id ∈ s.existIds
  · simp only [if_pos hmem]
    exact h
  · simp only [if_neg hmem]
    obtain ⟨h1, h2, h3⟩ := h
    refine ⟨?_, ?_, h3⟩
    · rw [List.map_append]
      rw [List.nodup_append]
      refine ⟨h1, List.nodup_singleton _, ?_⟩
      intro a ha hb
      rcases List.mem_singleton.mp hb with rfl
      rcases List.mem_map.mp ha with ⟨r, hr, hid⟩
      exact hmem (hid ▸ h2 r hr)
    · intro r hr
      rcases List.mem_append.mp hr with hr' | hr'
      · exact Finset.mem_insert_of_mem (h2 r hr')
      · rcases List.mem_singleton.mp hr' with rfl
        exact Finset.mem_insert_self _ _

theorem processItem_inv (sp : Int) (s : State) (x : Item × Int) (h : Inv s) :
    Inv (processItem sp s x) :=
  deploy_inv sp false x.2 (admitItem s x.1) (admit_inv s x.1 h)

theorem runItems_inv (sp : Int) (xs : List (Item × Int)) (s : State) (h : Inv s) :
    Inv (runItems sp s xs) := by
  induction xs generalizing s with
  | nil => exact h
  | cons x l ih => exact ih (processItem sp s x) (processItem_inv sp s x h)

theorem deploy_of_not_hasUpdate (sp : Int) (f : Bool) (n : Int) (s : State)
    (h : s.hasUpdate = false) : deploy sp f n s = s := by
  unfold deploy
  simp [h]

theorem admit_of_mem (s : State) (it : Item) (h : it.id ∈ s.existIds) :
    admitItem s it = s := by
  unfold admitItem
  simp [h]

theorem admit_mem_self (s : State) (it : Item) : it.id ∈ (admitItem s it).existIds := by
  unfold admitItem
  by_cases h : it.id ∈ s.existIds
  · simp only [if_pos h]
    exact h
  · simp only [if_neg h]
    exact Finset.mem_insert_self _ _

theorem admit_existIds_mono (s : State) (it : Item) :
    s.existIds ⊆ (admitItem s it).existIds := by
  unfold admitItem
  by_cases h : it.id ∈ s.existIds
  · simp [h]
  · simp only [if_neg h]
    exact Finset.subset_insert _ _

theorem processItem_existIds_mono (sp : Int) (s : State) (x : Item × Int) :
    s.existIds ⊆ (processItem sp s x).existIds := by
  unfold processItem
  rw [(deploy_records_existIds sp false x.2 (admitItem s x.1)).2]
  exact admit_existIds_mono s x.1

theorem runItems_existIds_mono (sp : Int) (xs : List (Item × Int)) (s : State) :
    s.existIds ⊆ (runItems sp s xs).existIds := by
  induction xs generalizing s with
  | nil => exact Finset.Subset.refl _
  | cons x l ih =>
    exact Finset.Subset.trans (processItem_existIds_mono sp s x)
      (ih (processItem sp s x))

/-- Every id the Fetcher yields during a run ends up in the ledger. -/
theorem runItems_mem_existIds (sp : Int) (xs : List (Item × Int)) (s : State)
    (x : Item × Int) (hx : x ∈ xs) : x.1.id ∈ (runItems sp s xs).existIds := by
  induction xs generalizing s with
  | nil => cases hx
  | cons y l ih =>
    rcases List.mem_cons.mp hx with rfl | hx'
    · have h1 : x.1.id ∈ (processItem sp s x).existIds := by
        unfold processItem
        rw [(deploy_records_existIds sp false x.2 (admitItem s x.1)).2]
        exact admit_mem_self s x.1
      exact runItems_existIds_mono sp l (processItem sp s x) h1
    · exact ih (processItem sp s y) hx'

/-- The ledger always equals the id column of the accumulator (both are
loaded together and updated together). -/
def LedgerSync (s : State) : Prop :=
  s.existIds = (s.records.map Item.id).toFinset

theorem ledgerSync_initState (loaded : List Item) : LedgerSync (initState loaded) :=
  rfl

theorem admit_ledgerSync (s : State) (it : Item) (h : LedgerSync s) :
    LedgerSync (admitItem s it) := by
  unfold admitItem
  by_cases hmem : it.id ∈ s.existIds
  · simp only [if_pos hmem]
    exact h
  · simp only [if_neg hmem]
    unfold LedgerSync at h ⊢
    simp only [List.map_append, List.toFinset_append, h]
    ext a
    simp [or_comm]

theorem processItem_ledgerSync (sp : Int) (s : State) (x : Item × Int)
    (h : LedgerSync s) : LedgerSync (processItem sp s x) := by
  unfold processItem LedgerSync
  rw [(deploy_records_existIds sp false x.2 (admitItem s x.1)).1,
    (deploy_records_existIds sp false x.2 (admitItem s x.1)).2]
  exact admit_ledgerSync s x.1 h

theorem runItems_ledgerSync (sp : Int) (xs : List (Item × Int)) (s : State)
    (h : LedgerSync s) : LedgerSync (runItems sp s xs) := by
  induction xs generalizing s with
  | nil => exact h
  | cons x l ih => exact ih (processItem sp s x) (processItem_ledgerSync sp s x h)

/-- If every incoming id is already in the ledger and no update is
pending, the whole item loop is a strict no-op. -/
theorem runItems_fixed (sp : Int) (xs : List (Item × Int)) :
    ∀ s : State, s.hasUpdate = false → (∀ x ∈ xs, x.1.id ∈ s.existIds) →
      runItems sp s xs = s := by
  induction xs with
  | nil =>
    intro s _ _
    rfl
  | cons y l ih =>
    intro s hu hmem
    have h1 : admitItem s y.1 = s := admit_of_mem s y.1 (hmem y (List.mem_cons_self y l))
    have h2 : processItem sp s y = s := by
      unfold processItem
      rw [h1]
      exact deploy_of_not_hasUpdate sp false y.2 s hu
    calc runItems sp s (y :: l) = runItems sp (processItem sp s y) l := rfl
    _ = runItems sp s l := by rw [h2]
    _ = s := ih s hu (fun x hx => hmem x (List.mem_cons_of_mem y hx))

end Index

/-- C1: sync over the id stream `[5,3,5,7]` from an empty destination:
exactly the three records with ids 5, 3, 7 are admitted (in fetch
order), the ledger ends as `{3,5,7}`, and the table serialized by the
final forced flush is `[7,5,3]` (descending by id). -/
theorem c1_end_to_end_small_run :
    (Index.sync 300 [] [(⟨5⟩, 0), (⟨3⟩, 1), (⟨5⟩, 2), (⟨7⟩, 3)] 4).records
        = [⟨5⟩, ⟨3⟩, ⟨7⟩] ∧
    (Index.sync 300 [] [(⟨5⟩, 0), (⟨3⟩, 1), (⟨5⟩, 2), (⟨7⟩, 3)] 4).existIds
        = ({3, 5, 7} : Finset Int) ∧
    (Index.sync 300 [] [(⟨5⟩, 0), (⟨3⟩, 1), (⟨5⟩, 2), (⟨7⟩, 3)] 4).published.getLast?
        = some [⟨7⟩, ⟨5⟩, ⟨3⟩] := by
  decide

/-- A strictly-descending table has pairwise distinct ids. -/
theorem pairwise_lt_map_nodup (t : List Item)
    (h : t.Pairwise (fun a b => Item.id b < Item.id a)) :
    (t.map Item.id).Nodup := by
  have : t.Pairwise (fun a b => Item.id a ≠ Item.id b) :=
    h.imp (fun hlt => ne_of_gt hlt)
  exact List.pairwise_map.mpr this

/-- C5: starting from a loaded table with distinct ids, after every
admission step the accumulator's id column is duplicate-free, and so is
the id column of every snapshot published during the run. -/
theorem c5_no_duplicate_ids (sp : Int) (loaded : List Item)
    (xs : List (Item × Int)) (endTime : Int)
    (h : (loaded.map Item.id).Nodup) :
    (∀ n, ((Index.runItems sp (Index.initState loaded) (xs.take n)).records.map
        Item.id).Nodup) ∧
    (∀ t ∈ (Index.sync sp loaded xs endTime).published, (t.map Item.id).Nodup) := by
  constructor
  · intro n
    exact (Index.runItems_inv sp (xs.take n) (Index.initState loaded)
      (Index.inv_initState loaded h)).1
  · intro t ht
    have hinv : Index.Inv (Index.sync sp loaded xs endTime) :=
      Index.deploy_inv sp true endTime _
        (Index.runItems_inv sp xs (Index.initState loaded)
          (Index.inv_initState loaded h))
    exact pairwise_lt_map_nodup t (hinv.2.2 t ht)

theorem c5_witness :
    ((([⟨1⟩] : List Item).map Item.id).Nodup) ∧
    ((∀ n, ((Index.runItems 300 (Index.initState [⟨1⟩]) ([(⟨2⟩, 0)].take n)).records.map
        Item.id).Nodup) ∧
     (∀ t ∈ (Index.sync 300 [⟨1⟩] [(⟨2⟩, 0)] 1).published, (t.map Item.id).Nodup)) :=
  ⟨by decide, c5_no_duplicate_ids 300 [⟨1⟩] [(⟨2⟩, 0)] 1 (by decide)⟩

/-- C6: every snapshot published during a run (non-forced or forced) is
strictly descending by id, whatever the admission order was. -/
theorem c6_published_sorted (sp : Int) (loaded : List Item)
    (xs : List (Item × Int)) (endTime : Int)
    (h : (loaded.map Item.id).Nodup) :
    ∀ t ∈ (Index.sync sp loaded xs endTime).published,
      t.Pairwise (fun a b => Item.id b < Item.id a) := by
  intro t ht
  have hinv : Index.Inv (Index.sync sp loaded xs endTime) :=
    Index.deploy_inv sp true endTime _
      (Index.runItems_inv sp xs (Index.initState loaded)
        (Index.inv_initState loaded h))
  exact hinv.2.2 t ht

theorem c6_witness :
    ((([⟨4⟩] : List Item).map Item.id).Nodup) ∧
    (∀ t ∈ (Index.sync 300 [⟨4⟩] [(⟨9⟩, 0), (⟨6⟩, 1)] 2).published,
      t.Pairwise (fun a b => Item.id b < Item.id a)) :=
  ⟨by decide, c6_published_sorted 300 [⟨4⟩] [(⟨9⟩, 0), (⟨6⟩, 1)] 2 (by decide)⟩

/-- C7: a second run against an unchanged Fetcher, loading the first
run's output: every candidate id is already in the loaded ledger, the
state after any number of loop steps is exactly the loaded state, and
the whole second run (final forced flush included) returns the loaded
state — zero admissions, zero uploads. -/
theorem c7_second_run_noop (sp1 sp2 end1 end2 : Int) (xs ys : List (Item × Int))
    (hsame : ys.map Prod.fst = xs.map Prod.fst) :
    (∀ p ∈ ys,
        p.1.id ∈ (Index.initState (Index.sync sp1 [] xs end1).records).existIds) ∧
    (∀ n, Index.runItems sp2 (Index.initState (Index.sync sp1 [] xs end1).records)
        (ys.take n) = Index.initState (Index.sync sp1 [] xs end1).records) ∧
    Index.sync sp2 (Index.sync sp1 [] xs end1).records ys end2
      = Index.initState (Index.sync sp1 [] xs end1).records := by
  have hrec : (Index.sync sp1 [] xs end1).records
      = (Index.runItems sp1 (Index.initState []) xs).records :=
    (Index.deploy_records_existIds sp1 true end1 _).1
  have hE : Index.LedgerSync (Index.runItems sp1 (Index.initState []) xs) :=
    Index.runItems_ledgerSync sp1 xs _ (Index.ledgerSync_initState [])
  have hkey : ∀ p ∈ ys,
      p.1.id ∈ (Index.initState (Index.sync sp1 [] xs end1).records).existIds := by
    intro p hp
    have hp1 : p.1 ∈ ys.map Prod.fst := List.mem_map_of_mem Prod.fst hp
    rw [hsame] at hp1
    rcases List.mem_map.mp hp1 with ⟨x, hxmem, hx1⟩
    have hidmem : x.1.id ∈ (Index.runItems sp1 (Index.initState []) xs).existIds :=
      Index.runItems_mem_existIds sp1 xs _ x hxmem
    show p.1.id ∈ ((Index.sync sp1 [] xs end1).records.map Item.id).toFinset
    rw [hrec, ← hE, ← hx1]
    exact hidmem
  refine ⟨hkey, ?_, ?_⟩
  · intro n
    exact Index.runItems_fixed sp2 (ys.take n) _ rfl
      (fun x hx => hkey x (List.take_subset n ys hx))
  · show Index.deploy sp2 true end2
      (Index.runItems sp2 (Index.initState (Index.sync sp1 [] xs end1).records) ys)
        = Index.initState (Index.sync sp1 [] xs end1).records
    rw [Index.runItems_fixed sp2 ys _ rfl hkey]
    exact Index.deploy_of_not_hasUpdate sp2 true end2 _ rfl

theorem c7_witness :
    (∀ p ∈ ([(⟨1⟩, 0)] : List (Item × Int)),
        p.1.id ∈ (Index.initState (Index.sync 300 [] [(⟨1⟩, 0)] 1).records).existIds) ∧
    (∀ n, Index.runItems 300 (Index.initState (Index.sync 300 [] [(⟨1⟩, 0)] 1).records)
        (([(⟨1⟩, 0)] : List (Item × Int)).take n)
        = Index.initState (Index.sync 300 [] [(⟨1⟩, 0)] 1).records) ∧
    Index.sync 300 (Index.sync 300 [] [(⟨1⟩, 0)] 1).records [(⟨1⟩, 0)] 2
      = Index.initState (Index.sync 300 [] [(⟨1⟩, 0)] 1).records :=
  c7_second_run_noop 300 300 1 2 [(⟨1⟩, 0)] [(⟨1⟩, 0)] rfl

/-- C2 (amended): the `_deploy` gate of the index-style scrapers.  A
non-forced call that actually uploads had a pending update and either no
earlier successful flush in this run or at least `deploy_span` elapsed
since it; and with no pending update `_deploy` is a no-op, forced or
not.  (The per-block publisher of `imgflip/db.py` is NOT gated this way:
see the counterexample.) -/
theorem c2_deploy_gate (sp now : Int) (force : Bool) (s : Index.State) :
    ((Index.deploy sp false now s).published ≠ s.published →
        s.hasUpdate = true ∧
        (s.lastUpdate = none ∨ ∃ t, s.lastUpdate = some t ∧ t + sp ≤ now)) ∧
    (s.hasUpdate = false → Index.deploy sp force now s = s) := by
  constructor
  · intro hne
    by_cases hu : s.hasUpdate = false
    · exfalso
      apply hne
      unfold Index.deploy
      simp [hu]
    · have hu' : s.hasUpdate = true := by
        cases hval : s.hasUpdate
        · exact absurd hval hu
        · rfl
      refine ⟨hu', ?_⟩
      cases hl : s.lastUpdate with
      | none => exact Or.inl rfl
      | some t =>
        refine Or.inr ⟨t, rfl, ?_⟩
        by_contra hgt
        have hgt' : t + sp > now := lt_of_not_le hgt
        apply hne
        unfold Index.deploy
        simp [hu', hl, hgt']
  · intro hu
    unfold Index.deploy
    simp [hu]

theorem c2_witness :
    ((⟨[⟨1⟩], {1}, true, none, 0, []⟩ : Index.State).hasUpdate = true ∧
     ((⟨[⟨1⟩], {1}, true, none, 0, []⟩ : Index.State).lastUpdate = none ∨
      ∃ t, (⟨[⟨1⟩], {1}, true, none, 0, []⟩ : Index.State).lastUpdate = some t ∧
        t + 300 ≤ 10)) :=
  (c2_deploy_gate 300 10 false ⟨[⟨1⟩], {1}, true, none, 0, []⟩).1 (by decide)

namespace ImgflipDb

/-!
## The block-oriented publisher of `scrappers/imgflip/db.py::sync`

Unlike the `_deploy`-gated scrapers, `imgflip/db.py` serializes and
uploads the table after EVERY block (lines 133-179): the
`if new_image_count > 0` test only decides whether the fresh tar volume
gets an index or is deleted; the `upload_directory_as_directory` call is
unconditional.
-/

/-- The mutable state of `imgflip/db.py::sync`: `records`, `exist_ids`,
`max_volume_id`, and the observed sequence of uploaded snapshots. -/
structure DbState where
  records : List Item
  existIds : Finset Int
  maxVolumeId : Nat
  published : List (List Item)
deriving DecidableEq

/-- Loaded state (db.py lines 43-67): table plus `exist_ids = set(df['id'])`
and `max_volume_id` from `meta.json`. -/
def initDbState (loaded : List Item) (maxVolumeId : Nat) : DbState :=
  { records := loaded
    existIds := (loaded.map Item.id).toFinset
    maxVolumeId := maxVolumeId
    published := [] }

/-- One iteration of the block loop (db.py lines 87-179).  Each block
item is paired with whether its download/decode succeeds; a success
appends the enriched record and its id under the lock (lines 115-129), a
failure contributes nothing.  The serialized sorted table is uploaded
unconditionally at the end of the block. -/
def processBlock (s : DbState) (block : List (Item × Bool)) : DbState :=
  let s1 : DbState := { s with maxVolumeId := s.maxVolumeId + 1 }
  let s2 := block.foldl
    (fun t x =>
      if x.2 then
        { t with records := t.records ++ [x.1], existIds := insert x.1.id t.existIds }
      else t) s1
  { s2 with published := s2.published ++ [sortDescBy Item.id s2.records] }

/-- `df_src_records[i * batch_size:(i + 1) * batch_size]` for
`i in range(ceil(len / batch_size))`: split into chunks of `batchSize`
(the list's length is enough fuel). -/
def chunksOfAux (batchSize : Nat) : Nat → List α → List (List α)
  | 0, _ => []
  | fuel + 1, xs =>
    if xs.isEmpty then []
    else xs.take batchSize :: chunksOfAux batchSize fuel (xs.drop batchSize)

def chunksOf (batchSize : Nat) (xs : List α) : List (List α) :=
  chunksOfAux batchSize xs.length xs

/-- `imgflip/db.py::sync` lines 43-179: load, drop source rows whose id
is already present (line 74), process the remainder (in the randomly
shuffled order, taken here as the given list order) block by block. -/
def sync (loaded : List Item) (maxVolumeId : Nat) (src : List (Item × Bool))
    (batchSize : Nat) : DbState :=
  let s0 := initDbState loaded maxVolumeId
  let pending := src.filter (fun x => decide (x.1.id ∉ s0.existIds))
  (chunksOf batchSize pending).foldl processBlock s0

end ImgflipDb

/-- C2 counterexample: in `imgflip/db.py`, a block in which every
download fails produces zero new records, yet the table is uploaded
anyway — run with the destination holding record 0 and one pending
source row (id 1) whose download fails: the accumulator is unchanged
but one upload still occurs. -/
theorem c2_counterexample_db_uploads_without_update :
    (ImgflipDb.sync [⟨0⟩] 0 [(⟨1⟩, false)] 1000).records = [⟨0⟩] ∧
    (ImgflipDb.sync [⟨0⟩] 0 [(⟨1⟩, false)] 1000).published = [[⟨0⟩]] := by
  decide

namespace Yzk

/-!
## The video sync of `scrappers/yzk/dx.py::sync`

Same `_deploy` gate shape as the index scrapers, but the download loop
(dx.py lines 140-181) appends to `records` and `exist_ids` WITHOUT ever
assigning `has_update = True`, so `_deploy` always returns early — the
upload branch is unreachable in this sync.  (Were it reached, it would
also write `README.md` into and upload `td`, the per-item temporary
directory, which is already deleted when `_deploy` runs.)
-/

structure YState where
  records : List Item
  existIds : Finset Int
  hasUpdate : Bool
  lastUpdate : Option Int
  totalCount : Nat
  published : List (List Item)
deriving DecidableEq

/-- `_deploy` of dx.py lines 81-138: the same gate as the index
scrapers; a non-skipped call uploads the descending-sorted table. -/
def deploy (sp : Int) (force : Bool) (now : Int) (s : YState) : YState :=
  if s.hasUpdate = false then s
  else
    let skip : Bool := !force &&
      (match s.lastUpdate with
       | none => false
       | some t => decide (t + sp > now))
    if skip then s
    else
      let table := sortDescBy Item.id s.records
      { s with
        published := s.published ++ [table]
        hasUpdate := false
        lastUpdate := some now
        totalCount := table.length }

/-- One iteration of dx.py lines 140-182: the item is paired with
whether its yt-dlp download succeeds and with the `time.time()` value
seen by the trailing `_deploy(force=False)`.  A failed download is
logged and skipped; a success appends the enriched row and its id.
`has_update` is never assigned. -/
def processItem (sp : Int) (s : YState) (x : Item × Bool × Int) : YState :=
  let s1 :=
    if x.2.1 then
      { s with records := s.records ++ [x.1], existIds := insert x.1.id s.existIds }
    else s
  deploy sp false x.2.2 s1

/-- dx.py lines 41-184: load, drop source pages whose id is already
present (line 63), sort the rest ascending by id (line 64), run the
download loop, then `_deploy(force=True)`. -/
def sync (sp : Int) (loaded : List Item) (src : List (Item × Bool × Int))
    (endTime : Int) : YState :=
  let s0 : YState :=
    { records := loaded
      existIds := (loaded.map Item.id).toFinset
      hasUpdate := false
      lastUpdate := none
      totalCount := loaded.length
      published := [] }
  let pending := sortAscBy (fun x => x.1.id)
    (src.filter (fun x => decide (x.1.id ∉ s0.existIds)))
  deploy sp true endTime (pending.foldl (processItem sp) s0)

end Yzk

/-- C3 fails on `yzk/dx.py`: run it from an empty destination over one
source page (id 1) whose download succeeds.  The Fetcher terminates with
one update pending (a new record was admitted), yet the run ends with
`has_update` still false and the Store having received no snapshot at
all — the final forced flush did not persist the accumulator. -/
theorem c3_yzk_forced_flush_never_uploads :
    (Yzk.sync 300 [] [(⟨1⟩, true, 0)] 1).records = [⟨1⟩] ∧
    (Yzk.sync 300 [] [(⟨1⟩, true, 0)] 1).hasUpdate = false ∧
    (Yzk.sync 300 [] [(⟨1⟩, true, 0)] 1).published = [] := by
  decide

namespace ImgflipIndex

/-!
## The enriching index scraper `scrappers/imgflip/index.py`

Its `_fn` worker (lines 119-139) dedups on `caption_url`, not on id:
`exist_caption_urls` is the skip gate, and the raw template item carries
no id at all — the id arrives only in the Converter's output
(`get_generator_info`).  An already-admitted id reached through a new
`caption_url` therefore IS passed to the Converter, and is then merged
through the fill-missing-optional-field path.

Python truthiness of `alt_names` / `default_settings` is modelled with
`Option`: `_process_item` in `imgflip/page.py` normalizes falsy values
to `None`, so "empty" is exactly `none`.
-/

/-- A raw template from `iter_all_templates` (imgflip/page.py lines
35-41), reduced to the fields `_fn` reads.  It has NO id. -/
structure RawTpl where
  pid : String
  captionUrl : String
deriving DecidableEq, Repr

/-- The Converter output `vitem = get_generator_info(caption_url)`,
reduced to the fields `_fn` reads. -/
structure GenInfo where
  id : Int
  urlName : String
  altNames : Option String
  defaultSettings : Option String
deriving DecidableEq, Repr

/-- `current_item = {**item, **vitem}` (index.py line 127): the raw
fields plus the converter fields; the id comes from the converter. -/
structure IFRecord where
  pid : String
  captionUrl : String
  id : Int
  urlName : String
  altNames : Option String
  defaultSettings : Option String
deriving DecidableEq, Repr

def mergeRaw (item : RawTpl) (v : GenInfo) : IFRecord :=
  { pid := item.pid
    captionUrl := item.captionUrl
    id := v.id
    urlName := v.urlName
    altNames := v.altNames
    defaultSettings := v.defaultSettings }

/-- `d_records` is a Python dict id → record (insertion-ordered). -/
def lookupRec : List (Int × IFRecord) → Int → Option IFRecord
  | [], _ => none
  | (k, r) :: rest, i => if k = i then some r else lookupRec rest i

/-- In-place mutation `d_records[i] = f(d_records[i])`. -/
def updateRec (d : List (Int × IFRecord)) (i : Int) (f : IFRecord → IFRecord) :
    List (Int × IFRecord) :=
  d.map (fun kr => if kr.1 = i then (kr.1, f kr.2) else kr)

structure IFState where
  dRecords : List (Int × IFRecord)
  existCaptionUrls : Finset String
  hasUpdate : Bool
  lastUpdate : Option Int
  totalCount : Nat
  published : List (List IFRecord)
deriving DecidableEq

/-- `_deploy` of imgflip/index.py lines 58-107: the usual gate,
serializing `list(d_records.values())` sorted by id descending. -/
def deploy (sp : Int) (force : Bool) (now : Int) (s : IFState) : IFState :=
  if s.hasUpdate = false then s
  else
    let skip : Bool := !force &&
      (match s.lastUpdate with
       | none => false
       | some t => decide (t + sp > now))
    if skip then s
    else
      let table := sortDescBy IFRecord.id (s.dRecords.map Prod.snd)
      { s with
        published := s.published ++ [table]
        hasUpdate := false
        lastUpdate := some now
        totalCount := table.length }

/-- index.py lines 129-132: `if current_item['id'] not in d_records:`
insert the record, ledger the `caption_url`, set `has_update`. -/
def admitNew (current : IFRecord) (s : IFState) : IFState :=
  if lookupRec s.dRecords current.id = none then
    { s with
      dRecords := s.dRecords ++ [(current.id, current)]
      existCaptionUrls := insert current.captionUrl s.existCaptionUrls
      hasUpdate := true }
  else s

/-- index.py lines 133-135: fill a previously-empty `alt_names` from the
freshly converted variant and set `has_update`. -/
def fillAlt (current : IFRecord) (s : IFState) : IFState :=
  match lookupRec s.dRecords current.id with
  | none => s
  | some r =>
    if r.altNames.isNone && current.altNames.isSome then
      { s with
        dRecords := updateRec s.dRecords current.id
          (fun q => { q with altNames := current.altNames })
        hasUpdate := true }
    else s

/-- index.py lines 136-138: same for `default_settings`. -/
def fillDS (current : IFRecord) (s : IFState) : IFState :=
  match lookupRec s.dRecords current.id with
  | none => s
  | some r =>
    if r.defaultSettings.isNone && current.defaultSettings.isSome then
      { s with
        dRecords := updateRec s.dRecords current.id
          (fun q => { q with defaultSettings := current.defaultSettings })
        hasUpdate := true }
    else s

/-- The body of `_fn` (index.py lines 119-139) up to but not including
the trailing `_deploy(force=False)`: skip if the `caption_url` is
ledgered, otherwise convert and run the three commit steps in source
order.  The returned Bool records whether `get_generator_info` (the
Converter) was invoked. -/
def fnCore (conv : String → GenInfo) (s : IFState) (item : RawTpl) :
    Bool × IFState :=
  if item.captionUrl ∈ s.existCaptionUrls then (false, s)
  else
    let current := mergeRaw item (conv item.captionUrl)
    (true, fillDS current (fillAlt current (admitNew current s)))

/-- The whole `_fn` worker: the core followed by `_deploy(force=False)`
under the lock. -/
def fn (conv : String → GenInfo) (sp : Int) (now : Int) (s : IFState)
    (item : RawTpl) : Bool × IFState :=
  let c := fnCore conv s item
  (c.1, deploy sp false now c.2)

/-- The fill-missing-optional-field merge applied to an existing record
`r` when a variant `cur` of the same id arrives: assign `alt_names` and
then `default_settings` exactly when previously empty and the variant
supplies them (index.py lines 133-138). -/
def fillMissing (r cur : IFRecord) : IFRecord :=
  let r1 := if r.altNames.isNone && cur.altNames.isSome
    then { r with altNames := cur.altNames } else r
  if r1.defaultSettings.isNone && cur.defaultSettings.isSome
    then { r1 with defaultSettings := cur.defaultSettings } else r1

theorem updateRec_keys (d : List (Int × IFRecord)) (i : Int)
    (f : IFRecord → IFRecord) :
    (updateRec d i f).map Prod.fst = d.map Prod.fst := by
  induction d with
  | nil => rfl
  | cons kr rest ih =>
    by_cases hk : kr.1 = i
    · simp only [updateRec, List.map_cons, if_pos hk] at *
      rw [ih]
    · simp only [updateRec, List.map_cons, if_neg hk] at *
      rw [ih]

theorem updateRec_cons (k : Int) (r : IFRecord) (rest : List (Int × IFRecord))
    (i : Int) (f : IFRecord → IFRecord) :
    updateRec ((k, r) :: rest) i f =
      (if k = i then (k, f r) else (k, r)) :: updateRec rest i f :=
  rfl

theorem lookupRec_cons (k : Int) (r : IFRecord) (rest : List (Int × IFRecord))
    (j : Int) :
    lookupRec ((k, r) :: rest) j = if k = j then some r else lookupRec rest j :=
  rfl

theorem lookupRec_updateRec (d : List (Int × IFRecord)) (i : Int)
    (f : IFRecord → IFRecord) (j : Int) :
    lookupRec (updateRec d i f) j =
      if j = i then Option.map f (lookupRec d j) else lookupRec d j := by
  induction d with
  | nil =>
    by_cases hj : j = i
    · simp [updateRec, lookupRec, hj]
    · simp [updateRec, lookupRec, hj]
  | cons kr rest ih =>
    obtain ⟨k, r⟩ := kr
    rw [updateRec_cons]
    by_cases hk : k = i
    · rw [if_pos hk]
      by_cases hj : k = j
      · subst hj
        rw [lookupRec_cons, if_pos rfl, lookupRec_cons, if_pos rfl, if_pos hk]
        rfl
      · rw [lookupRec_cons, if_neg hj, ih, lookupRec_cons, if_neg hj]
    · rw [if_neg hk]
      by_cases hj : k = j
      · subst hj
        rw [lookupRec_cons, if_pos rfl, lookupRec_cons, if_pos rfl,
          if_neg (fun h => hk h)]
      · rw [lookupRec_cons, if_neg hj, ih, lookupRec_cons, if_neg hj]

theorem admitNew_of_found (current : IFRecord) (s : IFState)
    (h : lookupRec s.dRecords current.id ≠ none) : admitNew current s = s := by
  unfold admitNew
  rw [if_neg h]

theorem fillAlt_of_found (current : IFRecord) (s : IFState) (r : IFRecord)
    (h : lookupRec s.dRecords current.id = some r) :
    fillAlt current s =
      if r.altNames.isNone && current.altNames.isSome then
        { s with
          dRecords := updateRec s.dRecords current.id
            (fun q => { q with altNames := current.altNames })
          hasUpdate := true }
      else s := by
  unfold fillAlt
  rw [h]

theorem fillDS_of_found (current : IFRecord) (s : IFState) (r : IFRecord)
    (h : lookupRec s.dRecords current.id = some r) :
    fillDS current s =
      if r.defaultSettings.isNone && current.defaultSettings.isSome then
        { s with
          dRecords := updateRec s.dRecords current.id
            (fun q => { q with defaultSettings := current.defaultSettings })
          hasUpdate := true }
      else s := by
  unfold fillDS
  rw [h]

end ImgflipIndex

/-- C4 counterexample: in `imgflip/index.py` the skip gate is
`caption_url`-based, so a candidate whose id (1) is already admitted but
whose `caption_url` ("b") is new IS passed to the Converter — the claim
says an id already in the ledger never reaches the Converter. -/
theorem c4_counterexample_converter_reached :
    (ImgflipIndex.lookupRec [(1, ⟨"p1", "a", 1, "u1", none, none⟩)] 1 ≠ none) ∧
    (ImgflipIndex.fnCore (fun _ => ⟨1, "u1", some "alt", none⟩)
        ⟨[(1, ⟨"p1", "a", 1, "u1", none, none⟩)], {"a"}, false, none, 1, []⟩
        ⟨"p2", "b"⟩).1 = true := by
  decide

open ImgflipIndex in
/-- C4 (amended): in `imgflip/index.py` the dedup gate is the
`caption_url` ledger.  (1) A candidate whose `caption_url` is ledgered
is skipped: the Converter is not invoked and the state is untouched.
(2) A candidate with a fresh `caption_url` is always passed to the
Converter, even when the resulting id is already admitted.  (3) In that
case the accumulator changes only through the fill-missing merge: no key
is added or removed, entries of other ids are untouched, the existing
record becomes its fill-missing merge with the converted variant, and
`has_update` is set exactly when a previously-empty `alt_names` or
`default_settings` was filled.  (4) The fill-missing merge never touches
the id or `caption_url` and only assigns previously-empty optional
fields, taking the converter's values. -/
theorem c4_caption_ledger_and_fill_merge (conv : String → GenInfo)
    (s : IFState) (item : RawTpl) :
    (item.captionUrl ∈ s.existCaptionUrls →
        fnCore conv s item = (false, s)) ∧
    (item.captionUrl ∉ s.existCaptionUrls →
        (fnCore conv s item).1 = true) ∧
    (∀ r : IFRecord,
      item.captionUrl ∉ s.existCaptionUrls →
      lookupRec s.dRecords (mergeRaw item (conv item.captionUrl)).id = some r →
        ((fnCore conv s item).2.existCaptionUrls = s.existCaptionUrls ∧
         (fnCore conv s item).2.dRecords.map Prod.fst = s.dRecords.map Prod.fst ∧
         (∀ j, j ≠ (mergeRaw item (conv item.captionUrl)).id →
            lookupRec (fnCore conv s item).2.dRecords j = lookupRec s.dRecords j) ∧
         lookupRec (fnCore conv s item).2.dRecords
             (mergeRaw item (conv item.captionUrl)).id
           = some (fillMissing r (mergeRaw item (conv item.captionUrl))) ∧
         (fnCore conv s item).2.hasUpdate
           = (s.hasUpdate
              || (r.altNames.isNone
                  && (mergeRaw item (conv item.captionUrl)).altNames.isSome)
              || (r.defaultSettings.isNone
                  && (mergeRaw item (conv item.captionUrl)).defaultSettings.isSome)))) ∧
    (∀ r cur : IFRecord,
        (fillMissing r cur).id = r.id ∧
        (fillMissing r cur).captionUrl = r.captionUrl ∧
        (r.altNames.isSome = true → (fillMissing r cur).altNames = r.altNames) ∧
        (r.defaultSettings.isSome = true →
            (fillMissing r cur).defaultSettings = r.defaultSettings) ∧
        ((fillMissing r cur).altNames = r.altNames ∨
            (r.altNames = none ∧ (fillMissing r cur).altNames = cur.altNames)) ∧
        ((fillMissing r cur).defaultSettings = r.defaultSettings ∨
            (r.defaultSettings = none ∧
             (fillMissing r cur).defaultSettings = cur.defaultSettings))) := by
  refine ⟨?_, ?_, ?_, ?_⟩
  · intro hmem
    unfold fnCore
    rw [if_pos hmem]
  · intro hmem
    unfold fnCore
    rw [if_neg hmem]
  · intro r hmem hr
    set cur := mergeRaw item (conv item.captionUrl) with hcur
    have hfn : (fnCore conv s item).2
        = fillDS cur (fillAlt cur (admitNew cur s)) := by
      unfold fnCore
      rw [if_neg hmem]
    have hadm : admitNew cur s = s :=
      admitNew_of_found cur s (by rw [hr]; simp)
    rw [hadm] at hfn
    by_cases hA : (r.altNames.isNone && cur.altNames.isSome) = true
    · have hfa : fillAlt cur s =
          { s with
            dRecords := updateRec s.dRecords cur.id
              (fun q => { q with altNames := cur.altNames })
            hasUpdate := true } := by
        rw [fillAlt_of_found cur s r hr, if_pos hA]
      have hlook2 : lookupRec (fillAlt cur s).dRecords cur.id
          = some { r with altNames := cur.altNames } := by
        rw [hfa]
        show lookupRec (updateRec s.dRecords cur.id
          (fun q => { q with altNames := cur.altNames })) cur.id = _
        rw [lookupRec_updateRec, if_pos rfl, hr]
        rfl
      by_cases hD : (r.defaultSettings.isNone && cur.defaultSettings.isSome) = true
      · have hDr : (({ r with altNames := cur.altNames } : IFRecord).defaultSettings.isNone
            && cur.defaultSettings.isSome) = true := hD
        have hfd : fillDS cur (fillAlt cur s) =
            { fillAlt cur s with
              dRecords := updateRec (fillAlt cur s).dRecords cur.id
                (fun q => { q with defaultSettings := cur.defaultSettings })
              hasUpdate := true } := by
          rw [fillDS_of_found cur (fillAlt cur s)
            { r with altNames := cur.altNames } hlook2, if_pos hDr]
        rw [hfn, hfd, hfa]
        dsimp only
        refine ⟨rfl, ?_, ?_, ?_, ?_⟩
        · rw [updateRec_keys, updateRec_keys]
        · intro j hj
          rw [lookupRec_updateRec, if_neg hj, lookupRec_updateRec, if_neg hj]
        · rw [lookupRec_updateRec, if_pos rfl, lookupRec_updateRec, if_pos rfl, hr]
          simp only [Option.map_some']
          congr 1
          unfold fillMissing
          rw [if_pos hA]
          dsimp only
          rw [if_pos hDr]
        · simp [hA]
      · have hDr : ¬((({ r with altNames := cur.altNames } : IFRecord).defaultSettings.isNone
            && cur.defaultSettings.isSome) = true) := hD
        have hfd : fillDS cur (fillAlt cur s) = fillAlt cur s := by
          rw [fillDS_of_found cur (fillAlt cur s)
            { r with altNames := cur.altNames } hlook2, if_neg hDr]
        rw [hfn, hfd, hfa]
        dsimp only
        refine ⟨rfl, ?_, ?_, ?_, ?_⟩
        · rw [updateRec_keys]
        · intro j hj
          rw [lookupRec_updateRec, if_neg hj]
        · rw [lookupRec_updateRec, if_pos rfl, hr]
          simp only [Option.map_some']
          congr 1
          unfold fillMissing
          rw [if_pos hA]
          dsimp only
          rw [if_neg hDr]
        · simp [hA]
    · have hfa : fillAlt cur s = s := by
        rw [fillAlt_of_found cur s r hr, if_neg hA]
      rw [hfa] at hfn
      by_cases hD : (r.defaultSettings.isNone && cur.defaultSettings.isSome) = true
      · have hfd : fillDS cur s =
            { s with
              dRecords := updateRec s.dRecords cur.id
                (fun q => { q with defaultSettings := cur.defaultSettings })
              hasUpdate := true } := by
          rw [fillDS_of_found cur s r hr, if_pos hD]
        rw [hfn, hfd]
        dsimp only
        refine ⟨rfl, ?_, ?_, ?_, ?_⟩
        · rw [updateRec_keys]
        · intro j hj
          rw [lookupRec_updateRec, if_neg hj]
        · rw [lookupRec_updateRec, if_pos rfl, hr]
          simp only [Option.map_some']
          congr 1
          unfold fillMissing
          rw [if_neg hA]
          dsimp only
          rw [if_pos hD]
        · simp [hA, hD]
      · have hfd : fillDS cur s = s := by
          rw [fillDS_of_found cur s r hr, if_neg hD]
        rw [hfn, hfd]
        refine ⟨rfl, rfl, ?_, ?_, ?_⟩
        · intro j _
          rfl
        · rw [hr]
          congr 1
          unfold fillMissing
          rw [if_neg hA]
          dsimp only
          rw [if_neg hD]
        · simp [hA, hD]
  · intro r cur
    rcases hia : r.altNames with _ | a <;>
      rcases hid : r.defaultSettings with _ | dv <;>
      rcases hca : cur.altNames with _ | ca <;>
      rcases hcd : cur.defaultSettings with _ | cd <;>
      simp [fillMissing, hia, hid, hca, hcd]

open ImgflipIndex in
theorem c4_witness :
    ImgflipIndex.fnCore (fun _ => ⟨7, "u", none, none⟩)
        ⟨[], {"a"}, false, none, 0, []⟩ ⟨"p", "a"⟩
      = (false, ⟨[], {"a"}, false, none, 0, []⟩) :=
  (c4_caption_ledger_and_fill_merge (fun _ => ⟨7, "u", none, none⟩)
    ⟨[], {"a"}, false, none, 0, []⟩ ⟨"p", "a"⟩).1 (by decide)

namespace Profile

/-!
## The bounded 403-retry loop of `scrappers/pdb/profile.py`

`get_profile` (lines 11-31) and `get_comments` (lines 34-65) share the
same `while True` loop: on an HTTP 403, sleep `2 ** tries` seconds,
increment `tries`, and retry while `tries <= max_retries`; once retries
are exhausted, `raise_for_status()` propagates the 403.  On any other
status, `raise_for_status()` either raises (status >= 400) or the loop
breaks and the JSON body is returned.
-/

/-- An HTTP response, reduced to its status code and an abstract body
(the parsed JSON). -/
structure Resp where
  status : Nat
  body : Nat
deriving DecidableEq, Repr

/-- The retry loop.  `resp n` is the response to the (n+1)-th request;
`tries` counts 403 retries performed so far; `remaining` is
`max_retries - tries`, the structural counterpart of the loop guard
`tries + 1 <= max_retries` (continue exactly while `remaining > 0`).
Returns the outcome — `Except.ok` body, or `Except.error` carrying the
status of the raising `raise_for_status()` — paired with the list of
back-off sleeps performed, in order, each `2 ^ tries` seconds. -/
def retryLoop (resp : Nat → Resp) : Nat → Nat → (Except Nat Nat) × List Nat
  | tries, remaining =>
    let r := resp tries
    if r.status = 403 then
      match remaining with
      | 0 => (Except.error 403, [])
      | rem + 1 =>
        let rest := retryLoop resp (tries + 1) rem
        (rest.1, 2 ^ tries :: rest.2)
    else if 400 ≤ r.status then (Except.error r.status, [])
    else (Except.ok r.body, [])

/-- `get_profile(pid, max_retries)` / `get_comments(...)`: run the loop
with `tries = 0`. -/
def getProfile (resp : Nat → Resp) (maxRetries : Nat) :
    (Except Nat Nat) × List Nat :=
  retryLoop resp 0 maxRetries

theorem sleeps_cons (tries k : Nat) :
    2 ^ tries :: (List.range k).map (fun j => 2 ^ (tries + 1 + j))
      = (List.range (k + 1)).map (fun j => 2 ^ (tries + j)) := by
  rw [List.range_succ_eq_map, List.map_cons, List.map_map]
  congr 1
  apply List.map_congr_left
  intro a _
  show (2:Nat) ^ (tries + 1 + a) = 2 ^ (tries + (a + 1))
  congr 1
  omega

theorem retryLoop_all_403 (resp : Nat → Resp)
    (h : ∀ n, (resp n).status = 403) :
    ∀ rem tries, retryLoop resp tries rem
      = (Except.error 403, (List.range rem).map (fun j => 2 ^ (tries + j))) := by
  intro rem
  induction rem with
  | zero =>
    intro tries
    unfold retryLoop
    rw [if_pos (h tries)]
    rfl
  | succ rem ih =>
    intro tries
    unfold retryLoop
    rw [if_pos (h tries)]
    dsimp only
    rw [ih (tries + 1)]
    dsimp only
    rw [sleeps_cons]

theorem retryLoop_length_le (resp : Nat → Resp) :
    ∀ rem tries, (retryLoop resp tries rem).2.length ≤ rem := by
  intro rem
  induction rem with
  | zero =>
    intro tries
    unfold retryLoop
    by_cases h : (resp tries).status = 403
    · rw [if_pos h]
      exact Nat.le_refl _
    · rw [if_neg h]
      by_cases h4 : 400 ≤ (resp tries).status
      · rw [if_pos h4]
        exact Nat.le_refl _
      · rw [if_neg h4]
        exact Nat.le_refl _
  | succ rem ih =>
    intro tries
    unfold retryLoop
    by_cases h : (resp tries).status = 403
    · rw [if_pos h]
      dsimp only
      rw [List.length_cons]
      exact Nat.succ_le_succ (ih (tries + 1))
    · rw [if_neg h]
      by_cases h4 : 400 ≤ (resp tries).status
      · rw [if_pos h4]
        exact Nat.zero_le _
      · rw [if_neg h4]
        exact Nat.zero_le _

theorem retryLoop_first_non403 (resp : Nat → Resp) :
    ∀ k tries rem, (∀ j, j < k → (resp (tries + j)).status = 403) →
      (resp (tries + k)).status ≠ 403 → k ≤ rem →
      retryLoop resp tries rem
        = (if 400 ≤ (resp (tries + k)).status
             then Except.error (resp (tries + k)).status
             else Except.ok (resp (tries + k)).body,
           (List.range k).map (fun j => 2 ^ (tries + j))) := by
  intro k
  induction k with
  | zero =>
    intro tries rem _ hne _
    rw [Nat.add_zero] at hne
    unfold retryLoop
    rw [if_neg hne]
    by_cases h4 : 400 ≤ (resp tries).status
    · rw [if_pos h4, if_pos (by rw [Nat.add_zero]; exact h4)]
      rw [Nat.add_zero]
      rfl
    · rw [if_neg h4, if_neg (by rw [Nat.add_zero]; exact h4)]
      rw [Nat.add_zero]
      rfl
  | succ k ih =>
    intro tries rem hall hne hle
    have h0 : (resp tries).status = 403 := by
      have := hall 0 (Nat.succ_pos k)
      rwa [Nat.add_zero] at this
    obtain ⟨rem', rfl⟩ : ∃ rem', rem = rem' + 1 := by
      cases rem with
      | zero => exact absurd hle (by omega)
      | succ r => exact ⟨r, rfl⟩
    unfold retryLoop
    rw [if_pos h0]
    dsimp only
    have hall' : ∀ j, j < k → (resp (tries + 1 + j)).status = 403 := by
      intro j hj
      have h := hall (j + 1) (by omega)
      rwa [show tries + (j + 1) = tries + 1 + j by omega] at h
    have hne' : (resp (tries + 1 + k)).status ≠ 403 := by
      rwa [show tries + 1 + k = tries + (k + 1) by omega]
    rw [ih (tries + 1) rem' hall' hne' (by omega)]
    dsimp only
    rw [sleeps_cons]
    rw [show tries + 1 + k = tries + (k + 1) from by omega]

end Profile

/-- C8: the bounded 403-retry loop of `get_profile`/`get_comments`.
(1) If every attempt returns 403, the loop retries with sleeps
`2^0, 2^1, ..., 2^(max_retries-1)` and then the HTTP 403 error
propagates.  (2) The number of back-off retries never exceeds
`max_retries`.  (3) If the first non-403 response arrives at attempt `k`
(within budget), the loop stops there: an error status (>= 400) raises
immediately with no further retry, and a success returns that response's
JSON body. -/
theorem c8_retry_with_backoff (resp : Nat → Profile.Resp) (maxRetries : Nat) :
    ((∀ n, (resp n).status = 403) →
        Profile.getProfile resp maxRetries
          = (Except.error 403, (List.range maxRetries).map (fun t => 2 ^ t))) ∧
    ((Profile.getProfile resp maxRetries).2.length ≤ maxRetries) ∧
    (∀ k, (∀ j, j < k → (resp j).status = 403) → (resp k).status ≠ 403 →
        k ≤ maxRetries →
        ((400 ≤ (resp k).status →
            Profile.getProfile resp maxRetries
              = (Except.error (resp k).status,
                 (List.range k).map (fun t => 2 ^ t))) ∧
         ((resp k).status < 400 →
            Profile.getProfile resp maxRetries
              = (Except.ok (resp k).body,
                 (List.range k).map (fun t => 2 ^ t))))) := by
  refine ⟨?_, ?_, ?_⟩
  · intro hall
    unfold Profile.getProfile
    rw [Profile.retryLoop_all_403 resp hall maxRetries 0]
    congr 1
    apply List.map_congr_left
    intro a _
    rw [Nat.zero_add]
  · exact Profile.retryLoop_length_le resp maxRetries 0
  · intro k hall hne hle
    have hbase := Profile.retryLoop_first_non403 resp k 0 maxRetries
      (by intro j hj; rw [Nat.zero_add]; exact hall j hj)
      (by rw [Nat.zero_add]; exact hne) hle
    rw [Nat.zero_add] at hbase
    have hmap : (List.range k).map (fun j => 2 ^ (0 + j))
        = (List.range k).map (fun t => 2 ^ t) := by
      apply List.map_congr_left
      intro a _
      rw [Nat.zero_add]
    constructor
    · intro h4
      unfold Profile.getProfile
      rw [hbase, if_pos h4, hmap]
    · intro h4
      unfold Profile.getProfile
      rw [hbase, if_neg (by omega), hmap]

theorem c8_witness :
    ((fun _ => (⟨403, 0⟩ : Profile.Resp)) 0).status = 403 ∧
    Profile.getProfile (fun _ => (⟨403, 0⟩ : Profile.Resp)) 3
      = (Except.error 403, [1, 2, 4]) :=
  ⟨rfl,
   by
    have h := (c8_retry_with_backoff (fun _ => (⟨403, 0⟩ : Profile.Resp)) 3).1
      (fun _ => rfl)
    rw [h]
    rfl⟩

namespace YzkStartup

/-!
## Startup effect order of `scrappers/yzk/dx.py::sync`

The `assert shutil.which('yt-dlp')` check sits at dx.py line 66 — after
`repo_exists` (line 31), the optional `create_repo` (line 32), the
`hf_hub_download` of the source `pages.parquet` (lines 41-45), the
`file_exists` probe (lines 47-51) and the optional destination table
download (lines 52-56), all of which talk to the network — but before
any yt-dlp video download is attempted.
-/

inductive StartEvent where
  | netRepoExists
  | netCreateRepo
  | netReadSrcPages
  | netCheckDstTable
  | netReadDstTable
  | toolCheckFailed (msg : String)
  | download (id : Int)
deriving DecidableEq, Repr

/-- The message of the `assert` at dx.py lines 66-67. -/
def ytDlpMsg : String :=
  "No yt-dlp found, you should install it follow these instructions: https://github.com/yt-dlp/yt-dlp"

/-- The sequence of externally visible effects of dx.py lines 24-184, in
source order, up to the download loop.  When yt-dlp is absent the assert
raises and the trace ends there; otherwise the pending items are
downloaded. -/
def startTrace (toolPresent dstRepoExists dstTableExists : Bool)
    (pendingIds : List Int) : List StartEvent :=
  [StartEvent.netRepoExists]
  ++ (if dstRepoExists then [] else [StartEvent.netCreateRepo])
  ++ [StartEvent.netReadSrcPages, StartEvent.netCheckDstTable]
  ++ (if dstTableExists then [StartEvent.netReadDstTable] else [])
  ++ (if toolPresent then pendingIds.map StartEvent.download
      else [StartEvent.toolCheckFailed ytDlpMsg])

def isNetworkEvent : StartEvent → Bool
  | StartEvent.netRepoExists => true
  | StartEvent.netCreateRepo => true
  | StartEvent.netReadSrcPages => true
  | StartEvent.netCheckDstTable => true
  | StartEvent.netReadDstTable => true
  | _ => false

def isDownload : StartEvent → Bool
  | StartEvent.download _ => true
  | _ => false

end YzkStartup

/-- C9 counterexample: with yt-dlp missing and an already-populated
destination, the run does fail at the tool check (the final trace event)
but only after four network operations (repo probe, source table
download, destination probe, destination table download) — not "before
any network activity" as claimed. -/
theorem c9_counterexample_network_before_tool_check :
    (YzkStartup.startTrace false true true [1]).getLast?
        = some (YzkStartup.StartEvent.toolCheckFailed YzkStartup.ytDlpMsg) ∧
    ((YzkStartup.startTrace false true true [1]).filter
        YzkStartup.isNetworkEvent).length = 4 := by
  decide

/-- C9 (amended): when yt-dlp is not on PATH, the yzk video sync always
fails at the startup assert with the actionable install-instructions
message, after loading state from the Store but before attempting any
video download. -/
theorem c9_tool_check_before_downloads (dstRepoExists dstTableExists : Bool)
    (pendingIds : List Int) :
    (YzkStartup.startTrace false dstRepoExists dstTableExists pendingIds).getLast?
        = some (YzkStartup.StartEvent.toolCheckFailed YzkStartup.ytDlpMsg) ∧
    (YzkStartup.startTrace false dstRepoExists dstTableExists pendingIds).all
        (fun e => !(YzkStartup.isDownload e)) = true := by
  cases dstRepoExists <;> cases dstTableExists <;> exact ⟨rfl, rfl⟩

namespace Ptx

/-!
## The deduplicating cursor generator `scrappers/pdb/ptx.py::iter_ptx_from_cursor`
-/

/-- A profile item from the API, reduced to its id and an abstract
remainder. -/
structure PItem where
  id : Int
  body : Nat
deriving DecidableEq, Repr

/-- One parsed response page: `data['results']` plus
`data['cursor']['nextCursor']`. -/
structure Page where
  results : List PItem
  nextCursor : String
deriving DecidableEq, Repr

/-- The inner for-loop (ptx.py lines 59-64): yield the items whose id is
not yet in `exist_ids`, inserting each yielded id; also report
`has_new_item`. -/
def yieldNew : List PItem → Finset Int → List PItem × Finset Int × Bool
  | [], ex => ([], ex, false)
  | it :: rest, ex =>
    if it.id ∈ ex then yieldNew rest ex
    else
      let r := yieldNew rest (insert it.id ex)
      (it :: r.1, r.2.1, true)

/-- The cursor loop (ptx.py lines 45-76).  `api cursor` is the parsed
page the API returns for a cursor value; `fuel` bounds the number of
pages visited (the Python loop may walk arbitrarily many pages — every
finite prefix of a run is an instance of some fuel).  After each page:
bump or reset `no_new_count`, stop once it reaches `max_no_new_page`,
then advance the cursor and stop if it is falsy (empty). -/
def iterPages (api : String → Page) (maxNoNew : Nat) :
    Nat → String → Finset Int → Nat → List PItem
  | 0, _, _, _ => []
  | fuel + 1, cursor, ex, noNew =>
    let page := api cursor
    let r := yieldNew page.results ex
    let noNew' := if r.2.2 then 0 else noNew + 1
    if maxNoNew ≤ noNew' then r.1
    else if page.nextCursor = "" then r.1
    else r.1 ++ iterPages api maxNoNew fuel page.nextCursor r.2.1 noNew'

/-- `iter_ptx_from_cursor(...)`: start from the initial cursor with an
empty per-invocation `exist_ids` and `no_new_count = 0`. -/
def iterPtxFromCursor (api : String → Page) (maxNoNew : Nat) (fuel : Nat)
    (initCursor : String) : List PItem :=
  iterPages api maxNoNew fuel initCursor ∅ 0

theorem yieldNew_spec (results : List PItem) :
    ∀ ex : Finset Int,
      (∀ it ∈ (yieldNew results ex).1, it.id ∉ ex) ∧
      (((yieldNew results ex).1.map PItem.id).Nodup) ∧
      ex ⊆ (yieldNew results ex).2.1 ∧
      (∀ it ∈ (yieldNew results ex).1, it.id ∈ (yieldNew results ex).2.1) := by
  induction results with
  | nil =>
    intro ex
    refine ⟨?_, ?_, ?_, ?_⟩
    · intro it hit
      cases hit
    · exact List.nodup_nil
    · exact Finset.Subset.refl _
    · intro it hit
      cases hit
  | cons it rest ih =>
    intro ex
    have hstep0 : yieldNew (it :: rest) ex
        = if it.id ∈ ex then yieldNew rest ex
          else (it :: (yieldNew rest (insert it.id ex)).1,
                (yieldNew rest (insert it.id ex)).2.1, true) := rfl
    by_cases hmem : it.id ∈ ex
    · have hstep : yieldNew (it :: rest) ex = yieldNew rest ex := by
        rw [hstep0, if_pos hmem]
      rw [hstep]
      obtain ⟨ha, hb, hc, hd⟩ := ih ex
      refine ⟨ha, hb, hc, hd⟩
    · have hstep : yieldNew (it :: rest) ex =
          (it :: (yieldNew rest (insert it.id ex)).1,
           (yieldNew rest (insert it.id ex)).2.1, true) := by
        rw [hstep0, if_neg hmem]
      rw [hstep]
      obtain ⟨ha, hb, hc, hd⟩ := ih (insert it.id ex)
      refine ⟨?_, ?_, ?_, ?_⟩
      · intro j hj
        rcases List.mem_cons.mp hj with rfl | hj'
        · exact hmem
        · intro hcontra
          exact ha j hj' (Finset.mem_insert_of_mem hcontra)
      · rw [List.map_cons]
        refine List.nodup_cons.mpr ⟨?_, hb⟩
        intro hcontra
        rcases List.mem_map.mp hcontra with ⟨q, hq, hqid⟩
        exact ha q hq (hqid ▸ Finset.mem_insert_self _ _)
      · exact fun a ha' => hc (Finset.mem_insert_of_mem ha')
      · intro j hj
        rcases List.mem_cons.mp hj with rfl | hj'
        · exact hc (Finset.mem_insert_self _ _)
        · exact hd j hj'

theorem iterPages_nodup (api : String → Page) (maxNoNew : Nat) :
    ∀ fuel : Nat, ∀ cursor : String, ∀ ex : Finset Int, ∀ noNew : Nat,
      (((iterPages api maxNoNew fuel cursor ex noNew).map PItem.id).Nodup) ∧
      (∀ it ∈ iterPages api maxNoNew fuel cursor ex noNew, it.id ∉ ex) := by
  intro fuel
  induction fuel with
  | zero =>
    intro cursor ex noNew
    exact ⟨List.nodup_nil, fun it hit => absurd hit (List.not_mem_nil it)⟩
  | succ fuel ih =>
    intro cursor ex noNew
    obtain ⟨ha, hb, hc, hd⟩ := yieldNew_spec (api cursor).results ex
    have hstep : iterPages api maxNoNew (fuel + 1) cursor ex noNew =
        (if maxNoNew ≤ (if (yieldNew (api cursor).results ex).2.2 then 0 else noNew + 1)
         then (yieldNew (api cursor).results ex).1
         else if (api cursor).nextCursor = ""
           then (yieldNew (api cursor).results ex).1
           else (yieldNew (api cursor).results ex).1 ++
             iterPages api maxNoNew fuel (api cursor).nextCursor
               (yieldNew (api cursor).results ex).2.1
               (if (yieldNew (api cursor).results ex).2.2 then 0 else noNew + 1)) := rfl
    rw [hstep]
    by_cases h1 : maxNoNew ≤ (if (yieldNew (api cursor).results ex).2.2 then 0 else noNew + 1)
    · rw [if_pos h1]
      exact ⟨hb, ha⟩
    · rw [if_neg h1]
      by_cases h2 : (api cursor).nextCursor = ""
      · rw [if_pos h2]
        exact ⟨hb, ha⟩
      · rw [if_neg h2]
        obtain ⟨ihn, ihm⟩ := ih (api cursor).nextCursor
          (yieldNew (api cursor).results ex).2.1
          (if (yieldNew (api cursor).results ex).2.2 then 0 else noNew + 1)
        constructor
        · rw [List.map_append]
          rw [List.nodup_append]
          refine ⟨hb, ihn, ?_⟩
          intro a hma hmr
          rcases List.mem_map.mp hma with ⟨q, hq, hqid⟩
          rcases List.mem_map.mp hmr with ⟨p, hp, hpid⟩
          exact ihm p hp (hpid ▸ hqid ▸ hd q hq)
        · intro it hit
          rcases List.mem_append.mp hit with hit' | hit'
          · exact ha it hit'
          · intro hcontra
            exact ihm it hit' (hc hcontra)

end Ptx

/-- C10: within one invocation of `iter_ptx_from_cursor` the yielded ids
are pairwise distinct (the per-invocation `exist_ids` set filters
repeats), whatever pages the API returns; moreover after a page that
yields nothing new while `no_new_count + 1` has reached
`max_no_new_page`, or a page whose `nextCursor` is empty, the generator
stops with that page's yield. -/
theorem c10_iter_ptx_distinct_ids (api : String → Ptx.Page)
    (maxNoNew fuel : Nat) (initCursor : String) :
    (((Ptx.iterPtxFromCursor api maxNoNew fuel initCursor).map Ptx.PItem.id).Nodup) ∧
    (∀ cursor ex noNew,
      ((Ptx.yieldNew (api cursor).results ex).2.2 = false →
          maxNoNew ≤ noNew + 1 →
          Ptx.iterPages api maxNoNew (fuel + 1) cursor ex noNew
            = (Ptx.yieldNew (api cursor).results ex).1) ∧
      ((api cursor).nextCursor = "" →
          Ptx.iterPages api maxNoNew (fuel + 1) cursor ex noNew
            = (Ptx.yieldNew (api cursor).results ex).1)) := by
  constructor
  · exact (Ptx.iterPages_nodup api maxNoNew fuel initCursor ∅ 0).1
  · intro cursor ex noNew
    have hstep : Ptx.iterPages api maxNoNew (fuel + 1) cursor ex noNew =
        (if maxNoNew ≤ (if (Ptx.yieldNew (api cursor).results ex).2.2 then 0 else noNew + 1)
         then (Ptx.yieldNew (api cursor).results ex).1
         else if (api cursor).nextCursor = ""
           then (Ptx.yieldNew (api cursor).results ex).1
           else (Ptx.yieldNew (api cursor).results ex).1 ++
             Ptx.iterPages api maxNoNew fuel (api cursor).nextCursor
               (Ptx.yieldNew (api cursor).results ex).2.1
               (if (Ptx.yieldNew (api cursor).results ex).2.2 then 0 else noNew + 1)) := rfl
    constructor
    · intro hno hcount
      have hx : (if (Ptx.yieldNew (api cursor).results ex).2.2 then 0 else noNew + 1)
          = noNew + 1 := by
        rw [hno]
        simp
      rw [hstep, hx, if_pos hcount]
    · intro hempty
      rw [hstep]
      by_cases h1 : maxNoNew ≤ (if (Ptx.yieldNew (api cursor).results ex).2.2 then 0 else noNew + 1)
      · rw [if_pos h1]
      · rw [if_neg h1, if_pos hempty]

theorem c10_witness :
    ((((Ptx.iterPtxFromCursor (fun _ => ⟨[⟨1, 0⟩, ⟨1, 1⟩], ""⟩) 10 5 "").map
        Ptx.PItem.id).Nodup) ∧
     ((fun _ : String => (⟨[⟨1, 0⟩, ⟨1, 1⟩], ""⟩ : Ptx.Page)) "x").nextCursor = "" ∧
     Ptx.iterPages (fun _ => ⟨[⟨1, 0⟩, ⟨1, 1⟩], ""⟩) 10 (4 + 1) "x" ∅ 0
       = (Ptx.yieldNew ((fun _ : String => (⟨[⟨1, 0⟩, ⟨1, 1⟩], ""⟩ : Ptx.Page)) "x").results ∅).1) :=
  ⟨(c10_iter_ptx_distinct_ids (fun _ => ⟨[⟨1, 0⟩, ⟨1, 1⟩], ""⟩) 10 5 "").1,
   rfl,
   ((c10_iter_ptx_distinct_ids (fun _ => ⟨[⟨1, 0⟩, ⟨1, 1⟩], ""⟩) 10 4 "").2 "x" ∅ 0).2 rfl⟩

end Scrappers
